import Mathlib

/-!
Verification development for the NativeTasks core of the nettlep/magic
repository: the pixel kernels of `FastImage.cpp` and the ring buffer of
`CircularImageBuffer.h`, shallowly embedded in Lean.

Machine arithmetic is modelled explicitly: `uint32_t` operations reduce
modulo `2^32`, values stored in an `int` wrap into `[-2^31, 2^31)`, the
C arithmetic right shift `>> 16` is floor division by `2^16`, and the C
`%` on `int` is truncating (`Int.tmod`).
-/

namespace Magic

/-- Reinterpret an integer as a signed 32-bit value (twos-complement wrap),
as happens when a C expression is stored into an `int`. -/
def wrap32 (n : Int) : Int := (n + 2 ^ 31) % 2 ^ 32 - 2 ^ 31

/-- Reduce a natural number modulo `2^32`, the value set of `uint32_t`. -/
def u32 (n : Nat) : Nat := n % 2 ^ 32

/-- Arithmetic right shift by 16 of a 32-bit `int` value: floor division by
`2^16` (Int division with a positive divisor is floor division). -/
def sar16 (x : Int) : Int := x / 65536

lemma wrap32_eq_self {n : Int} (h1 : -2 ^ 31 ≤ n) (h2 : n < 2 ^ 31) :
    wrap32 n = n := by
  unfold wrap32; omega

lemma wrap32_wrap32_add (a b : Int) : wrap32 (wrap32 a + b) = wrap32 (a + b) := by
  unfold wrap32; omega

lemma wrap32_lb (n : Int) : -2 ^ 31 ≤ wrap32 n := by unfold wrap32; omega

lemma wrap32_ub (n : Int) : wrap32 n < 2 ^ 31 := by unfold wrap32; omega

/-- `(srcD << kFixedShift) / dstD` from the resampling kernels: the shift and
the division happen in `uint32_t`, and the quotient is then stored in an
`int` (`fxDxSrc` / `fxDySrc` / `dxSrc` / `dySrc` in the source). -/
def fxDelta (srcD dstD : Nat) : Int :=
  wrap32 ((((u32 srcD * 65536) % 2 ^ 32) / u32 dstD : Nat) : Int)

/-- The fixed-point accumulator after `n` loop iterations: the source loops
start at `0` and execute `xSrc += fxDxSrc` (a wrapping `int` addition) once
per destination pixel. -/
def fxAccum (d : Int) : Nat → Int
  | 0 => 0
  | n + 1 => wrap32 (fxAccum d n + d)

lemma fxAccum_eq (d : Int) (n : Nat) : fxAccum d n = wrap32 ((n : Int) * d) := by
  induction n with
  | zero =>
      simp [fxAccum]
      unfold wrap32; omega
  | succ k ih =>
      show wrap32 (fxAccum d k + d) = _
      rw [ih, wrap32_wrap32_add]
      congr 1
      push_cast
      ring

/-- The source coordinate sampled by the nearest-neighbor loops for
destination coordinate `n` along one axis: `xSrc >> kFixedShift` where
`xSrc` is the fixed-point accumulator. Identical for rows and columns. -/
def nnCoord (srcD dstD n : Nat) : Int := sar16 (fxAccum (fxDelta srcD dstD) n)

/-- The flat source index read by `resampleNearestNeighborLuma` /
`resampleNearestNeighborColor` for destination pixel `(x, y)`:
`ySrcOffset + xSrcOffset` with `ySrcOffset = (ySrc >> 16) * srcWidth`
(an `int` by `uint32_t` product, performed in `uint32_t` and stored in an
`int`) and `xSrcOffset = xSrc >> 16`. -/
def nnSrcIndex (srcW srcH dstW dstH x y : Nat) : Int :=
  wrap32 (wrap32 (nnCoord srcH dstH y * (u32 srcW : Int)) + nnCoord srcW dstW x)

/-- The flat destination index written for destination pixel `(x, y)`:
`yDstOffset + xDstOffset` with `yDstOffset = yDst * dstWidth` (again an
`int` by `uint32_t` product) and `xDstOffset = xDst`. -/
def nnDstIndex (dstW x y : Nat) : Int :=
  wrap32 (wrap32 ((y : Int) * (u32 dstW : Int)) + (x : Int))

/-- `resampleNearestNeighborLuma` of `FastImage.cpp`, per destination pixel:
the value written at destination pixel `(x, y)` is the source sample at the
computed flat index. The source array is modelled as a total map from flat
(pointer-offset) indices to sample values. -/
def resampleNearestNeighborLuma (src : Int → Nat) (srcW srcH dstW dstH x y : Nat) : Nat :=
  src (nnSrcIndex srcW srcH dstW dstH x y)

/-- `resampleNearestNeighborColor` of `FastImage.cpp`: the same index
computation as the luma variant, over 32-bit color samples. -/
def resampleNearestNeighborColor (src : Int → Nat) (srcW srcH dstW dstH x y : Nat) : Nat :=
  src (nnSrcIndex srcW srcH dstW dstH x y)

/-- `x0Src` (resp. `y0Src`) of `resampleLerpFastLuma`: low edge of the source
rectangle of destination column `n`, `xSrc >> kFixedShift`. -/
def lerpLo (srcD dstD n : Nat) : Int := sar16 (fxAccum (fxDelta srcD dstD) n)

/-- `x1Src` (resp. `y1Src`) of `resampleLerpFastLuma`: high edge of the source
rectangle, `(xSrc + dxSrc) >> kFixedShift`, the accumulator one step later. -/
def lerpHi (srcD dstD n : Nat) : Int := sar16 (fxAccum (fxDelta srcD dstD) (n + 1))

/-- `tot = (y1Src - y0Src) * (x1Src - x0Src)` of `resampleLerpFastLuma`: the
source-rectangle area that the box-average kernel divides by, for destination
pixel `(x, y)`; `int` arithmetic throughout. -/
def lerpTot (srcW srcH dstW dstH x y : Nat) : Int :=
  wrap32 (wrap32 (lerpHi srcH dstH y - lerpLo srcH dstH y) *
    wrap32 (lerpHi srcW dstW x - lerpLo srcW dstW x))

section Rotate

variable {α : Type}

/-- One inner-loop body of `rotate180` in `FastImage.cpp`, at row `y` and
column `x`, acting on the flat buffer: with `topLine = buffer + width * y`
and `botLine = buffer + width * (height - y - 1)` the body performs

  `topLine[x] = botLine[w-x-1]; topLine[w-x-1] = botLine[x];`
  `botLine[x] = rtmp; botLine[w-x-1] = ltmp;`

where `ltmp`/`rtmp` are the prior values of `topLine[x]`/`topLine[w-x-1]`. -/
def rotStep (w h y x : Nat) (buf : Nat → α) : Nat → α := fun p =>
  if p = w * y + x then buf (w * (h - y - 1) + (w - x - 1))
  else if p = w * y + (w - x - 1) then buf (w * (h - y - 1) + x)
  else if p = w * (h - y - 1) + x then buf (w * y + (w - x - 1))
  else if p = w * (h - y - 1) + (w - x - 1) then buf (w * y + x)
  else buf p

/-- The inner loop of `rotate180` for one row `y`: `for x in [0, width/2)`. -/
def rotRow (w h y : Nat) (b : Nat → α) : Nat → α :=
  (List.range (w / 2)).foldl (fun b2 x => rotStep w h y x b2) b

/-- `rotate180` of `FastImage.cpp`: the outer loop `for y in [0, height/2)`
running the inner loop on each row, in place on the flat sample buffer. -/
def rotate180 (buf : Nat → α) (w h : Nat) : Nat → α :=
  (List.range (h / 2)).foldl (fun b y => rotRow w h y b) buf

lemma flat_div {w q r : Nat} (hr : r < w) : (w * q + r) / w = q := by
  have hw : 0 < w := by omega
  rw [Nat.mul_add_div hw, Nat.div_eq_of_lt hr, Nat.add_zero]

lemma flat_mod {w q r : Nat} (hr : r < w) : (w * q + r) % w = r := by
  rw [Nat.mul_add_mod, Nat.mod_eq_of_lt hr]

lemma flat_eq_iff {w q r y x : Nat} (hr : r < w) (hx : x < w) :
    w * q + r = w * y + x ↔ q = y ∧ r = x := by
  constructor
  · intro hEq
    have h1 : (w * q + r) / w = (w * y + x) / w := by rw [hEq]
    rw [flat_div hr, flat_div hx] at h1
    subst h1
    exact ⟨rfl, by omega⟩
  · rintro ⟨rfl, rfl⟩; rfl

lemma rotRowAux_spec (w h y : Nat) (hy : y < h / 2) :
    ∀ (j : Nat), j ≤ w / 2 → ∀ (b : Nat → α) (q r : Nat), q < h → r < w →
    ((List.range j).foldl (fun b2 x => rotStep w h y x b2) b) (w * q + r) =
      if (q = y ∨ q = h - y - 1) ∧ (r < j ∨ w - r - 1 < j) then
        b (w * (h - q - 1) + (w - r - 1))
      else b (w * q + r) := by
  intro j
  induction j with
  | zero =>
      intro _ b q r hq hr
      simp
  | succ k ih =>
      intro hk b q r hq hr
      have hk' : k ≤ w / 2 := by omega
      rw [List.range_succ, List.foldl_append, List.foldl_cons, List.foldl_nil]
      have hkw : k < w := by omega
      have hkw' : w - k - 1 < w := by omega
      show rotStep w h y k _ (w * q + r) = _
      rw [rotStep]
      simp only [flat_eq_iff hr hkw, flat_eq_iff hr hkw']
      by_cases h1 : q = y ∧ r = k
      · rw [if_pos h1, h1.1, h1.2]
        rw [ih hk' b (h - y - 1) (w - k - 1) (by omega) (by omega)]
        conv_lhs => rw [if_neg (by omega)]
        conv_rhs => rw [if_pos (by omega)]
      · rw [if_neg h1]
        by_cases h2 : q = y ∧ r = w - k - 1
        · rw [if_pos h2, h2.1, h2.2]
          rw [ih hk' b (h - y - 1) k (by omega) (by omega)]
          conv_lhs => rw [if_neg (by omega)]
          conv_rhs => rw [if_pos (by omega)]
          congr 1
          omega
        · rw [if_neg h2]
          by_cases h3 : q = h - y - 1 ∧ r = k
          · rw [if_pos h3, h3.1, h3.2]
            rw [ih hk' b y (w - k - 1) (by omega) (by omega)]
            conv_lhs => rw [if_neg (by omega)]
            conv_rhs => rw [if_pos (by omega)]
            have e1 : h - (h - y - 1) - 1 = y := by omega
            rw [e1]
          · rw [if_neg h3]
            by_cases h4 : q = h - y - 1 ∧ r = w - k - 1
            · rw [if_pos h4, h4.1, h4.2]
              rw [ih hk' b y k (by omega) (by omega)]
              conv_lhs => rw [if_neg (by omega)]
              conv_rhs => rw [if_pos (by omega)]
              have e1 : h - (h - y - 1) - 1 = y := by omega
              have e2 : w - (w - k - 1) - 1 = k := by omega
              rw [e1, e2]
            · rw [if_neg h4]
              rw [ih hk' b q r hq hr]
              by_cases hc : (q = y ∨ q = h - y - 1) ∧ (r < k ∨ w - r - 1 < k)
              · rw [if_pos hc]
                conv_rhs => rw [if_pos (by omega)]
              · rw [if_neg hc]
                conv_rhs => rw [if_neg (by omega)]

lemma rotRow_spec (w h y : Nat) (hy : y < h / 2) (b : Nat → α) (q r : Nat)
    (hq : q < h) (hr : r < w) :
    rotRow w h y b (w * q + r) =
      if (q = y ∨ q = h - y - 1) ∧ (r < w / 2 ∨ w - r - 1 < w / 2) then
        b (w * (h - q - 1) + (w - r - 1))
      else b (w * q + r) :=
  rotRowAux_spec w h y hy (w / 2) le_rfl b q r hq hr

lemma rotOuterAux_spec (w h : Nat) :
    ∀ (k : Nat), k ≤ h / 2 → ∀ (buf : Nat → α) (q r : Nat), q < h → r < w →
    ((List.range k).foldl (fun b y => rotRow w h y b) buf) (w * q + r) =
      if (q < k ∨ h - q - 1 < k) ∧ (r < w / 2 ∨ w - r - 1 < w / 2) then
        buf (w * (h - q - 1) + (w - r - 1))
      else buf (w * q + r) := by
  intro k
  induction k with
  | zero =>
      intro _ buf q r hq hr
      simp
  | succ k ih =>
      intro hk buf q r hq hr
      have hk' : k ≤ h / 2 := by omega
      rw [List.range_succ, List.foldl_append, List.foldl_cons, List.foldl_nil]
      rw [rotRow_spec w h k (by omega) _ q r hq hr]
      by_cases h1 : (q = k ∨ q = h - k - 1) ∧ (r < w / 2 ∨ w - r - 1 < w / 2)
      · rw [if_pos h1]
        rw [ih hk' buf (h - q - 1) (w - r - 1) (by omega) (by omega)]
        conv_lhs => rw [if_neg (by omega)]
        conv_rhs => rw [if_pos (by omega)]
      · rw [if_neg h1]
        rw [ih hk' buf q r hq hr]
        by_cases h2 : (q < k ∨ h - q - 1 < k) ∧ (r < w / 2 ∨ w - r - 1 < w / 2)
        · rw [if_pos h2]
          conv_rhs => rw [if_pos (by omega)]
        · rw [if_neg h2]
          conv_rhs => rw [if_neg (by omega)]

/-- Closed form of `rotate180`: position `(q, r)` is swapped with its point
reflection `(h-1-q, w-1-r)` exactly when both coordinates fall in the half
ranges visited by the loops; all other positions (in particular the whole
middle row of an odd-height image and the whole middle column of an
odd-width image) are left untouched. -/
lemma rotate180_spec (buf : Nat → α) (w h q r : Nat) (hq : q < h) (hr : r < w) :
    rotate180 buf w h (w * q + r) =
      if (q < h / 2 ∨ h - q - 1 < h / 2) ∧ (r < w / 2 ∨ w - r - 1 < w / 2) then
        buf (w * (h - q - 1) + (w - r - 1))
      else buf (w * q + r) :=
  rotOuterAux_spec w h (h / 2) le_rfl buf q r hq hr

end Rotate

section Circular

/-- State of a `CircularImageBuffer<SampleType>` instance. Whole images are
modelled as opaque values of a type `α` (the `memcpy` into a slot copies the
full `width*height` sample block, so a slot either holds a caller-supplied
image or its initial uninitialized contents). Slots are indexed by `Int`
because the cursor fields of the source are C `int`s (`mNextGetIndex` uses
`-1` as the no-read-position sentinel). The `unsigned int` statistics
counters wrap modulo `2^32`. `locked` models whether the (shared) mutex is
held by the buffer code; operations are sequential, so `lock()` sets it and
`unlock()` clears it. -/
structure CircularImageBuffer (α : Type) where
  mWidth : Nat
  mHeight : Nat
  capacity : Nat
  mCircularBuffer : Int → α
  mStatFramesAdded : Nat
  mStatFramesRead : Nat
  mStatFramesSkipped : Nat
  mCount : Int
  mNextAddIndex : Int
  mNextGetIndex : Int
  locked : Bool

variable {α : Type}

/-- `reset()`: `lock(); mCount = 0; mNextAddIndex = 0; mNextGetIndex = -1; unlock()`. -/
def reset (s : CircularImageBuffer α) : CircularImageBuffer α :=
  { s with mCount := 0, mNextAddIndex := 0, mNextGetIndex := -1, locked := false }

/-- `resetStats()`: `lock();` zero the three counters; `unlock()`. -/
def resetStats (s : CircularImageBuffer α) : CircularImageBuffer α :=
  { s with mStatFramesAdded := 0, mStatFramesRead := 0, mStatFramesSkipped := 0,
           locked := false }

/-- The constructor: store the dimensions, pre-allocate `capacity` images
(their uninitialized contents are the parameter `slots`), then `reset()`
and `resetStats()`. -/
def initBuffer (w h cap : Nat) (slots : Int → α) : CircularImageBuffer α :=
  resetStats (reset
    { mWidth := w, mHeight := h, capacity := cap, mCircularBuffer := slots,
      mStatFramesAdded := 0, mStatFramesRead := 0, mStatFramesSkipped := 0,
      mCount := 0, mNextAddIndex := 0, mNextGetIndex := 0, locked := false })

/-- `add(image)`, translated line by line. `mMutex.lock()` happens first; the
`capacity() == 0` guard then returns early WITHOUT reaching the final
`mMutex.unlock()`, so that path leaves the mutex held. The C `%` on `int`
is truncating division, `Int.tmod`. The `assert`s are no-ops (release
semantics). -/
def add (s : CircularImageBuffer α) (image : α) : CircularImageBuffer α :=
  let s0 : CircularImageBuffer α := { s with locked := true }
  if s0.capacity = 0 then s0
  else
    let s1 : CircularImageBuffer α :=
      { s0 with
        mCircularBuffer := Function.update s0.mCircularBuffer s0.mNextAddIndex image,
        mStatFramesAdded := (s0.mStatFramesAdded + 1) % 2 ^ 32 }
    if s1.mCount = (s1.capacity : Int) then
      { s1 with
        mNextAddIndex := (s1.mNextAddIndex + 1).tmod (s1.capacity : Int),
        mNextGetIndex := (s1.mNextGetIndex + 1).tmod (s1.capacity : Int),
        mStatFramesSkipped := (s1.mStatFramesSkipped + 1) % 2 ^ 32,
        locked := false }
    else
      let s2 : CircularImageBuffer α :=
        if s1.mCount = 0 then { s1 with mNextGetIndex := s1.mNextAddIndex } else s1
      { s2 with
        mCount := s2.mCount + 1,
        mNextAddIndex := (s2.mNextAddIndex + 1).tmod (s2.capacity : Int),
        locked := false }

/-- `get()`: returns the image pointer (`none` when empty) together with the
successor state. When the count drops to zero the method calls `reset()`. -/
def get (s : CircularImageBuffer α) : Option α × CircularImageBuffer α :=
  if s.mCount = 0 then (none, s)
  else
    let image := s.mCircularBuffer s.mNextGetIndex
    let s1 : CircularImageBuffer α :=
      { s with mStatFramesRead := (s.mStatFramesRead + 1) % 2 ^ 32,
               mCount := s.mCount - 1 }
    if s1.mCount = 0 then (some image, reset s1)
    else (some image,
      { s1 with mNextGetIndex := (s1.mNextGetIndex + 1).tmod (s1.capacity : Int) })

/-- `peek()`: a `const` method; returns the next image (or `none`) and leaves
the state untouched. -/
def peek (s : CircularImageBuffer α) : Option α × CircularImageBuffer α :=
  if s.mCount = 0 then (none, s) else (some (s.mCircularBuffer s.mNextGetIndex), s)

/-- A public operation on the buffer. `accessors` stands for any of the
`const` property readers (`count`, `capacity`, `isEmpty`, `isFull`, `width`,
`height`, the three statistics readers, `lock`/`unlock` excluded). -/
inductive BufferOp (α : Type) where
  | add (image : α)
  | get
  | peek
  | reset
  | resetStats
  | accessors

/-- The state transition of one public operation. -/
def applyOp (s : CircularImageBuffer α) : BufferOp α → CircularImageBuffer α
  | .add image => add s image
  | .get => (get s).2
  | .peek => (peek s).2
  | .reset => reset s
  | .resetStats => resetStats s
  | .accessors => s

/-- The state after a sequence of public operations. -/
def applyOps (s : CircularImageBuffer α) (l : List (BufferOp α)) :
    CircularImageBuffer α :=
  l.foldl applyOp s

/-- The inductive state invariant actually maintained by the code. -/
def BufInv (s : CircularImageBuffer α) : Prop :=
  0 ≤ s.mCount ∧ s.mCount ≤ (s.capacity : Int) ∧
  (s.mCount = 0 → s.mNextAddIndex = 0 ∧ s.mNextGetIndex = -1) ∧
  (0 < s.mCount →
    0 ≤ s.mNextAddIndex ∧ s.mNextAddIndex < (s.capacity : Int) ∧
    0 ≤ s.mNextGetIndex ∧ s.mNextGetIndex < (s.capacity : Int))

lemma tmod_bounds {a b : Int} (ha : 0 ≤ a) (hb : 0 < b) :
    0 ≤ a.tmod b ∧ a.tmod b < b := by
  rw [Int.tmod_eq_emod ha (le_of_lt hb)]
  exact ⟨Int.emod_nonneg a (by omega), Int.emod_lt_of_pos a hb⟩

/-- `add` on a zero-capacity buffer: the early return leaves every data field
untouched but keeps the mutex locked. -/
lemma add_capZero (s : CircularImageBuffer α) (image : α) (h : s.capacity = 0) :
    add s image = { s with locked := true } := by
  rw [add, if_pos h]

/-- `add` on a full buffer (the overwrite path). -/
lemma add_full (s : CircularImageBuffer α) (image : α) (hcap : s.capacity ≠ 0)
    (hfull : s.mCount = (s.capacity : Int)) :
    add s image =
      { s with
        mCircularBuffer := Function.update s.mCircularBuffer s.mNextAddIndex image,
        mStatFramesAdded := (s.mStatFramesAdded + 1) % 2 ^ 32,
        mNextAddIndex := (s.mNextAddIndex + 1).tmod (s.capacity : Int),
        mNextGetIndex := (s.mNextGetIndex + 1).tmod (s.capacity : Int),
        mStatFramesSkipped := (s.mStatFramesSkipped + 1) % 2 ^ 32,
        locked := false } := by
  rw [add, if_neg hcap]
  exact if_pos hfull

/-- `add` on an empty buffer with positive capacity. -/
lemma add_empty (s : CircularImageBuffer α) (image : α) (hcap : s.capacity ≠ 0)
    (hempty : s.mCount = 0) :
    add s image =
      { s with
        mCircularBuffer := Function.update s.mCircularBuffer s.mNextAddIndex image,
        mStatFramesAdded := (s.mStatFramesAdded + 1) % 2 ^ 32,
        mNextGetIndex := s.mNextAddIndex,
        mCount := s.mCount + 1,
        mNextAddIndex := (s.mNextAddIndex + 1).tmod (s.capacity : Int),
        locked := false } := by
  have hnotfull : ¬ s.mCount = (s.capacity : Int) := by
    have : (0 : Int) < (s.capacity : Int) := by exact_mod_cast Nat.pos_of_ne_zero hcap
    omega
  rw [add, if_neg hcap, if_neg hnotfull, if_pos hempty]

/-- `add` on a non-empty, non-full buffer. -/
lemma add_mid (s : CircularImageBuffer α) (image : α) (hcap : s.capacity ≠ 0)
    (hne : s.mCount ≠ 0) (hnotfull : s.mCount ≠ (s.capacity : Int)) :
    add s image =
      { s with
        mCircularBuffer := Function.update s.mCircularBuffer s.mNextAddIndex image,
        mStatFramesAdded := (s.mStatFramesAdded + 1) % 2 ^ 32,
        mCount := s.mCount + 1,
        mNextAddIndex := (s.mNextAddIndex + 1).tmod (s.capacity : Int),
        locked := false } := by
  rw [add, if_neg hcap, if_neg hnotfull, if_neg hne]

/-- `get` on an empty buffer. -/
lemma get_empty (s : CircularImageBuffer α) (h : s.mCount = 0) :
    get s = (none, s) := by
  rw [get, if_pos h]

/-- `get` when exactly one image remains: the count drops to zero and the
method calls `reset()`. -/
lemma get_last (s : CircularImageBuffer α) (h : s.mCount = 1) :
    get s = (some (s.mCircularBuffer s.mNextGetIndex),
      { s with mStatFramesRead := (s.mStatFramesRead + 1) % 2 ^ 32,
               mCount := 0, mNextAddIndex := 0, mNextGetIndex := -1,
               locked := false }) := by
  rw [get, if_neg (by omega)]
  rw [if_pos (by simp; omega)]
  rw [reset]

/-- `get` when more than one image remains. -/
lemma get_more (s : CircularImageBuffer α) (h0 : s.mCount ≠ 0) (h1 : s.mCount ≠ 1) :
    get s = (some (s.mCircularBuffer s.mNextGetIndex),
      { s with mStatFramesRead := (s.mStatFramesRead + 1) % 2 ^ 32,
               mCount := s.mCount - 1,
               mNextGetIndex := (s.mNextGetIndex + 1).tmod (s.capacity : Int) }) := by
  rw [get, if_neg h0]
  rw [if_neg (by simp; omega)]

lemma bufInv_initBuffer (w h cap : Nat) (slots : Int → α) :
    BufInv (initBuffer w h cap slots) := by
  refine ⟨by norm_num [initBuffer, reset, resetStats], ?_, ?_, ?_⟩ <;>
    simp [initBuffer, reset, resetStats, BufInv]

/-- `peek` is `const`: its second component is the argument state itself. -/
lemma peek_state (s : CircularImageBuffer α) : (peek s).2 = s := by
  rw [peek]
  split <;> rfl

lemma bufInv_applyOp (s : CircularImageBuffer α) (op : BufferOp α)
    (hs : BufInv s) : BufInv (applyOp s op) := by
  obtain ⟨h0, h1, h2, h3⟩ := hs
  cases op with
  | add image =>
      show BufInv (add s image)
      by_cases hcap : s.capacity = 0
      · rw [add_capZero s image hcap]
        exact ⟨h0, h1, h2, h3⟩
      · have hcap' : (0 : Int) < (s.capacity : Int) := by
          exact_mod_cast Nat.pos_of_ne_zero hcap
        by_cases hfull : s.mCount = (s.capacity : Int)
        · have hpos : 0 < s.mCount := by omega
          obtain ⟨ha0, ha1, hg0, hg1⟩ := h3 hpos
          have hb1 := tmod_bounds (a := s.mNextAddIndex + 1) (by omega) hcap'
          have hb2 := tmod_bounds (a := s.mNextGetIndex + 1) (by omega) hcap'
          rw [add_full s image hcap hfull]
          unfold BufInv
          refine ⟨?_, ?_, ?_, ?_⟩ <;> (try simp only []) <;> first | trivial | omega
        · by_cases hempty : s.mCount = 0
          · obtain ⟨ha, hg⟩ := h2 hempty
            have hb1 := tmod_bounds (a := s.mNextAddIndex + 1) (by omega) hcap'
            rw [add_empty s image hcap hempty]
            simp only [BufInv]
            omega
          · have hpos : 0 < s.mCount := by omega
            obtain ⟨ha0, ha1, hg0, hg1⟩ := h3 hpos
            have hb1 := tmod_bounds (a := s.mNextAddIndex + 1) (by omega) hcap'
            rw [add_mid s image hcap hempty hfull]
            simp only [BufInv]
            omega
  | get =>
      show BufInv (get s).2
      by_cases hempty : s.mCount = 0
      · rw [get_empty s hempty]
        exact ⟨h0, h1, h2, h3⟩
      · have hpos : 0 < s.mCount := by omega
        obtain ⟨ha0, ha1, hg0, hg1⟩ := h3 hpos
        by_cases hone : s.mCount = 1
        · rw [get_last s hone]
          unfold BufInv
          refine ⟨?_, ?_, ?_, ?_⟩ <;> (try simp only []) <;> first | trivial | omega
        · have hcap' : (0 : Int) < (s.capacity : Int) := by omega
          have hb2 := tmod_bounds (a := s.mNextGetIndex + 1) (by omega) hcap'
          rw [get_more s hempty hone]
          unfold BufInv
          refine ⟨?_, ?_, ?_, ?_⟩ <;> (try simp only []) <;> first | trivial | omega
  | peek =>
      show BufInv (peek s).2
      rw [peek_state]
      exact ⟨h0, h1, h2, h3⟩
  | reset =>
      show BufInv (reset s)
      rw [reset]
      unfold BufInv
      refine ⟨?_, ?_, ?_, ?_⟩ <;> (try simp only []) <;> first | trivial | omega
  | resetStats =>
      exact ⟨h0, h1, h2, h3⟩
  | accessors =>
      exact ⟨h0, h1, h2, h3⟩

lemma bufInv_foldl (l : List (BufferOp α)) :
    ∀ s : CircularImageBuffer α, BufInv s → BufInv (l.foldl applyOp s) := by
  induction l with
  | nil => intro s hs; exact hs
  | cons op t ih =>
      intro s hs
      rw [List.foldl_cons]
      exact ih (applyOp s op) (bufInv_applyOp s op hs)

lemma bufInv_applyOps (w h cap : Nat) (slots : Int → α) (l : List (BufferOp α)) :
    BufInv (applyOps (initBuffer w h cap slots) l) :=
  bufInv_foldl l _ (bufInv_initBuffer w h cap slots)

end Circular

section Claims

/-- C6: for every width ≥ 1 and height ≥ 1 and every buffer of width*height
samples, applying `rotate180` twice restores the original contents exactly
(`rotate180` is an involution on the buffer state). -/
lemma rotate180_twice_at {α : Type} (buf : Nat → α) (w h q r : Nat)
    (hq : q < h) (hr : r < w) :
    rotate180 (rotate180 buf w h) w h (w * q + r) = buf (w * q + r) := by
  rw [rotate180_spec (rotate180 buf w h) w h q r hq hr]
  by_cases hc : (q < h / 2 ∨ h - q - 1 < h / 2) ∧ (r < w / 2 ∨ w - r - 1 < w / 2)
  · rw [if_pos hc]
    rw [rotate180_spec buf w h (h - q - 1) (w - r - 1) (by omega) (by omega)]
    have e1 : h - (h - q - 1) - 1 = q := by omega
    have e2 : w - (w - r - 1) - 1 = r := by omega
    rw [e1, e2]
    rw [if_pos (by omega)]
  · rw [if_neg hc]
    rw [rotate180_spec buf w h q r hq hr]
    rw [if_neg hc]

theorem c6_rotate180_involution {α : Type} (buf : Nat → α) (w h p : Nat)
    (hw : 1 ≤ w) (hh : 1 ≤ h) (hp : p < w * h) :
    rotate180 (rotate180 buf w h) w h p = buf p := by
  have hq : p / w < h := Nat.div_lt_of_lt_mul hp
  have hr : p % w < w := Nat.mod_lt p (by omega)
  have hdecomp : w * (p / w) + p % w = p := Nat.div_add_mod p w
  rw [← hdecomp]
  exact rotate180_twice_at buf w h (p / w) (p % w) hq hr

/-- Witness for C6 at a concrete 3x3 buffer and position 4. -/
theorem c6_rotate180_involution_witness :
    1 ≤ 3 ∧ 1 ≤ 3 ∧ 4 < 3 * 3 ∧
    rotate180 (rotate180 (fun n => n + 10) 3 3) 3 3 4 = 14 :=
  ⟨by decide, by decide, by decide,
    c6_rotate180_involution (fun n => n + 10) 3 3 4 (by decide) (by decide) (by decide)⟩

/-- C2 (code bug): on a 3x3 image with buffer contents `p ↦ p`, `rotate180`
leaves the middle row (flat positions 3, 4, 5) completely unchanged, because
the row loop stops at `height/2` and never visits row `height/2`. The claim
(and the 180-degree rotation the function documents) requires position 3 of
the rotated image to hold the value that was at position 5. -/
theorem c2_middle_row_untouched :
    rotate180 (fun p => p) 3 3 3 = 3 ∧
    rotate180 (fun p => p) 3 3 4 = 4 ∧
    rotate180 (fun p => p) 3 3 5 = 5 ∧
    (3 : Nat) ≠ 5 := by
  refine ⟨by decide, by decide, by decide, by decide⟩

/-- C4 (code bug): `add` on a capacity-0 buffer leaves every data field
(count, cursors, slots, the three statistics counters) unchanged, but
returns with the mutex still held: the early `return` skips the final
`mMutex.unlock()`, so the lock acquired on entry is NOT released. -/
theorem c4_add_capacity_zero_keeps_lock :
    add (initBuffer 1 1 0 (fun _ => (0 : Nat))) 7 =
      { initBuffer 1 1 0 (fun _ => (0 : Nat)) with locked := true } ∧
    (initBuffer 1 1 0 (fun _ => (0 : Nat))).locked = false :=
  ⟨add_capZero _ 7 rfl, rfl⟩

/-- C9: `reset` forces count = 0, nextAdd = 0, nextGet = -1 and leaves the
three statistics counters unchanged; `resetStats` zeroes the three counters
and leaves count, cursors and slot contents unchanged. -/
theorem c9_reset_resetStats_frame {α : Type} (s : CircularImageBuffer α) :
    (reset s).mCount = 0 ∧ (reset s).mNextAddIndex = 0 ∧
    (reset s).mNextGetIndex = -1 ∧
    (reset s).mStatFramesAdded = s.mStatFramesAdded ∧
    (reset s).mStatFramesRead = s.mStatFramesRead ∧
    (reset s).mStatFramesSkipped = s.mStatFramesSkipped ∧
    (resetStats s).mStatFramesAdded = 0 ∧
    (resetStats s).mStatFramesRead = 0 ∧
    (resetStats s).mStatFramesSkipped = 0 ∧
    (resetStats s).mCount = s.mCount ∧
    (resetStats s).mNextAddIndex = s.mNextAddIndex ∧
    (resetStats s).mNextGetIndex = s.mNextGetIndex ∧
    (resetStats s).mCircularBuffer = s.mCircularBuffer :=
  ⟨rfl, rfl, rfl, rfl, rfl, rfl, rfl, rfl, rfl, rfl, rfl, rfl, rfl⟩

/-- C8: `peek` leaves the entire state unchanged and two consecutive peeks
agree; on a non-empty buffer, `peek` and `get` return the same slot, and the
`get` decrements the count by exactly one. -/
theorem c8_peek_get_agreement {α : Type} (s : CircularImageBuffer α) :
    (peek s).2 = s ∧ (peek (peek s).2).1 = (peek s).1 ∧
    (s.mCount ≠ 0 →
      (get s).1 = (peek s).1 ∧ (get s).2.mCount = s.mCount - 1) := by
  refine ⟨peek_state s, by rw [peek_state], ?_⟩
  intro hne
  by_cases hone : s.mCount = 1
  · rw [get_last s hone, peek, if_neg hne]
    refine ⟨rfl, ?_⟩
    simp only []
    omega
  · rw [get_more s hne hone, peek, if_neg hne]
    exact ⟨rfl, rfl⟩

/-- Witness for C8 on a concrete one-element buffer. -/
theorem c8_peek_get_agreement_witness :
    (peek (add (initBuffer 1 1 2 (fun _ => (0 : Nat))) 5)).2 =
        add (initBuffer 1 1 2 (fun _ => (0 : Nat))) 5 ∧
    (peek (peek (add (initBuffer 1 1 2 (fun _ => (0 : Nat))) 5)).2).1 =
        (peek (add (initBuffer 1 1 2 (fun _ => (0 : Nat))) 5)).1 ∧
    ((add (initBuffer 1 1 2 (fun _ => (0 : Nat))) 5).mCount ≠ 0 →
      (get (add (initBuffer 1 1 2 (fun _ => (0 : Nat))) 5)).1 =
          (peek (add (initBuffer 1 1 2 (fun _ => (0 : Nat))) 5)).1 ∧
      (get (add (initBuffer 1 1 2 (fun _ => (0 : Nat))) 5)).2.mCount =
          (add (initBuffer 1 1 2 (fun _ => (0 : Nat))) 5).mCount - 1) :=
  c8_peek_get_agreement (add (initBuffer 1 1 2 (fun _ => (0 : Nat))) 5)

/-- C1 (amended): along every operation sequence from a freshly constructed
buffer, `count == 0` iff `nextGet` is the sentinel `-1`, and `count == 0`
implies `nextAdd == 0`. (The converse of the last implication — the third
leg of the claimed three-way equivalence — is false: see the
counterexample.) -/
theorem c1_empty_iff_sentinel {α : Type} (w h cap : Nat) (slots : Int → α)
    (ops : List (BufferOp α)) :
    ((applyOps (initBuffer w h cap slots) ops).mCount = 0 ↔
      (applyOps (initBuffer w h cap slots) ops).mNextGetIndex = -1) ∧
    ((applyOps (initBuffer w h cap slots) ops).mCount = 0 →
      (applyOps (initBuffer w h cap slots) ops).mNextAddIndex = 0) := by
  obtain ⟨h0, h1, h2, h3⟩ := bufInv_applyOps w h cap slots ops
  refine ⟨⟨fun hc => (h2 hc).2, fun hg => ?_⟩, fun hc => (h2 hc).1⟩
  by_contra hc
  have hpos := h3 (by omega)
  omega

/-- Counterexample to C1 as stated: after one `add` on a fresh capacity-1
buffer the write cursor has wrapped, so `count = 1` while `nextAdd = 0`,
refuting `count == 0 ⇔ nextAdd == 0`. -/
theorem c1_counterexample_nextAdd_wraps :
    ¬ (((applyOps (initBuffer 1 1 1 (fun _ => (0 : Nat))) [BufferOp.add 42]).mCount = 0 ↔
        (applyOps (initBuffer 1 1 1 (fun _ => (0 : Nat))) [BufferOp.add 42]).mNextAddIndex
          = 0)) := by
  decide

lemma fxDelta_eval (srcD dstD : Nat) (hs : srcD ≤ 32768) (hd : dstD < 2 ^ 32) :
    fxDelta srcD dstD = wrap32 ((srcD * 65536 / dstD : Nat) : Int) := by
  unfold fxDelta u32
  rw [Nat.mod_eq_of_lt (show srcD < 2 ^ 32 by omega),
      Nat.mod_eq_of_lt (show srcD * 65536 < 2 ^ 32 by omega),
      Nat.mod_eq_of_lt hd]

lemma nnCoord_identity (W n : Nat) (h1 : 1 ≤ W) (h2 : W ≤ 32768) (hn : n < W) :
    nnCoord W W n = (n : Int) := by
  have hq : W * 65536 / W = 65536 := Nat.mul_div_cancel_left 65536 (by omega)
  have hd : fxDelta W W = 65536 := by
    rw [fxDelta_eval W W h2 (by omega), hq]
    exact wrap32_eq_self (by norm_num) (by norm_num)
  unfold nnCoord
  rw [hd, fxAccum_eq]
  rw [wrap32_eq_self (by omega) (by omega)]
  unfold sar16
  exact Int.mul_ediv_cancel _ (by norm_num)

lemma flatWrap_eq (W a b : Nat) (ha : a ≤ 32767) (hW : W ≤ 32768) (hb : b < W) :
    wrap32 (wrap32 ((a : Int) * (W : Int)) + (b : Int)) = ((a * W + b : Nat) : Int) := by
  have h1 : a * W ≤ 32767 * 32768 := Nat.mul_le_mul ha hW
  have h2 : (a : Int) * (W : Int) = ((a * W : Nat) : Int) := by push_cast; ring
  rw [h2, wrap32_eq_self (n := ((a * W : Nat) : Int)) (by omega) (by omega),
      wrap32_eq_self (by omega) (by omega)]
  push_cast
  ring

/-- C7 (amended): the nearest-neighbor resample at identity scale reproduces
the source exactly — destination pixel `(x, y)` is written at flat index
`y*W + x` and receives the source sample at that same flat index — for both
the luma and the color variant, provided `W, H ≤ 32768` (above that the
signed fixed-point accumulator overflows; see the counterexample). -/
theorem c7_nn_identity_scale (src : Int → Nat) (W H x y : Nat)
    (hW1 : 1 ≤ W) (hW2 : W ≤ 32768) (hH1 : 1 ≤ H) (hH2 : H ≤ 32768)
    (hx : x < W) (hy : y < H) :
    nnDstIndex W x y = ((y * W + x : Nat) : Int) ∧
    resampleNearestNeighborLuma src W H W H x y = src ((y * W + x : Nat) : Int) ∧
    resampleNearestNeighborColor src W H W H x y = src ((y * W + x : Nat) : Int) := by
  have hu : u32 W = W := Nat.mod_eq_of_lt (by omega)
  have hidx : nnSrcIndex W H W H x y = ((y * W + x : Nat) : Int) := by
    unfold nnSrcIndex
    rw [hu, nnCoord_identity W x hW1 hW2 hx, nnCoord_identity H y hH1 hH2 hy]
    exact flatWrap_eq W y x (by omega) hW2 hx
  refine ⟨?_, ?_, ?_⟩
  · unfold nnDstIndex
    rw [hu]
    exact flatWrap_eq W y x (by omega) hW2 hx
  · unfold resampleNearestNeighborLuma
    rw [hidx]
  · unfold resampleNearestNeighborColor
    rw [hidx]

/-- Witness for C7 on a concrete 2x2 identity resample. -/
theorem c7_nn_identity_scale_witness :
    nnDstIndex 2 1 1 = ((1 * 2 + 1 : Nat) : Int) ∧
    resampleNearestNeighborLuma (fun i => i.toNat) 2 2 2 2 1 1 =
      (fun i : Int => i.toNat) ((1 * 2 + 1 : Nat) : Int) ∧
    resampleNearestNeighborColor (fun i => i.toNat) 2 2 2 2 1 1 =
      (fun i : Int => i.toNat) ((1 * 2 + 1 : Nat) : Int) :=
  c7_nn_identity_scale (fun i => i.toNat) 2 2 1 1 (by decide) (by decide)
    (by decide) (by decide) (by decide) (by decide)

/-- The flat source index the nearest-neighbor kernels read for the last
pixel of a 32769-wide identity-scale row: the accumulator `32768 * 65536`
overflows `int` to `-2^31`, and the sampled column becomes `-32768`. -/
lemma nnSrcIndex_32769 : nnSrcIndex 32769 1 32769 1 32768 0 = -32768 := by
  have hcoord : nnCoord 32769 32769 32768 = -32768 := by
    unfold nnCoord
    rw [fxAccum_eq]
    decide
  unfold nnSrcIndex
  rw [hcoord]
  decide

/-- Counterexample to C7 as stated: at identity scale `W = H' = 32769 × 1`
(with `1 ≤ W, H`), the last destination pixel of the row does NOT receive
the source sample at its own index — the read lands at flat index `-32768`
instead of `32768`, so a source image that is `1` at index 32768 and `0`
elsewhere resamples to `0` there. -/
theorem c7_counterexample_overflow :
    resampleNearestNeighborLuma (fun i => if i = 32768 then 1 else 0)
        32769 1 32769 1 32768 0 = 0 ∧
    (fun i : Int => if i = 32768 then (1 : Nat) else 0)
        ((0 * 32769 + 32768 : Nat) : Int) = 1 := by
  constructor
  · unfold resampleNearestNeighborLuma
    rw [nnSrcIndex_32769]
    norm_num
  · norm_num

/-- The sampled coordinate along one axis is in `[0, srcD)` whenever the
source dimension is at most 32768 (regardless of the destination dimension,
including upscaling). -/
lemma nnCoord_bounds (srcD dstD n : Nat) (hs1 : 1 ≤ srcD) (hs2 : srcD ≤ 32768)
    (hd1 : 1 ≤ dstD) (hd2 : dstD < 2 ^ 32) (hn : n < dstD) :
    0 ≤ nnCoord srcD dstD n ∧ nnCoord srcD dstD n < (srcD : Int) := by
  by_cases hone : dstD = 1
  · subst hone
    have hn0 : n = 0 := by omega
    subst hn0
    unfold nnCoord fxAccum sar16
    norm_num
    omega
  · -- dstD ≥ 2, so the quotient is at most 2^30 and nothing wraps
    set q : Nat := srcD * 65536 / dstD with hq
    have hqd : dstD * q ≤ srcD * 65536 := by
      rw [Nat.mul_comm]
      exact Nat.div_mul_le_self _ _
    have hq2 : 2 * q ≤ dstD * q := Nat.mul_le_mul_right q (by omega)
    have hqb : q ≤ 2 ^ 30 := by omega
    have hdelta : fxDelta srcD dstD = (q : Int) := by
      rw [fxDelta_eval srcD dstD hs2 hd2, ← hq]
      exact wrap32_eq_self (by omega) (by omega)
    by_cases hq0 : q = 0
    · unfold nnCoord sar16
      rw [hdelta, hq0, fxAccum_eq]
      norm_num [wrap32]
      omega
    · have hmul : (n + 1) * q = n * q + q := Nat.succ_mul n q
      have hnq : n * q + q ≤ srcD * 65536 := by
        have h1 : (n + 1) * q ≤ dstD * q := Nat.mul_le_mul_right q (by omega)
        omega
      have haccum : fxAccum (fxDelta srcD dstD) n = ((n * q : Nat) : Int) := by
        rw [hdelta, fxAccum_eq]
        have hc : (n : Int) * (q : Int) = ((n * q : Nat) : Int) := by push_cast; ring
        rw [hc]
        exact wrap32_eq_self (by omega) (by omega)
      unfold nnCoord sar16
      rw [haccum]
      constructor
      · omega
      · omega

/-- C10 (amended): for source dimensions at most 32768 (and dimensions in the
`uint32_t` range), every source read of the nearest-neighbor kernels is in
bounds: the sampled column lies in `[0, srcWidth)`, the sampled row in
`[0, srcHeight)`, and the flat index read lies in `[0, srcWidth*srcHeight)`.
For larger source dimensions the signed accumulator wraps and the index goes
negative (see the counterexample). -/
theorem c10_nn_reads_in_bounds (srcW srcH dstW dstH x y : Nat)
    (hsw1 : 1 ≤ srcW) (hsw2 : srcW ≤ 32768) (hsh1 : 1 ≤ srcH) (hsh2 : srcH ≤ 32768)
    (hdw1 : 1 ≤ dstW) (hdw2 : dstW < 2 ^ 32) (hdh1 : 1 ≤ dstH) (hdh2 : dstH < 2 ^ 32)
    (hx : x < dstW) (hy : y < dstH) :
    0 ≤ nnCoord srcW dstW x ∧ nnCoord srcW dstW x < (srcW : Int) ∧
    0 ≤ nnCoord srcH dstH y ∧ nnCoord srcH dstH y < (srcH : Int) ∧
    0 ≤ nnSrcIndex srcW srcH dstW dstH x y ∧
    nnSrcIndex srcW srcH dstW dstH x y < (srcW : Int) * (srcH : Int) := by
  obtain ⟨hc0, hc1⟩ := nnCoord_bounds srcW dstW x hsw1 hsw2 hdw1 hdw2 hx
  obtain ⟨hr0, hr1⟩ := nnCoord_bounds srcH dstH y hsh1 hsh2 hdh1 hdh2 hy
  have hu : u32 srcW = srcW := Nat.mod_eq_of_lt (by omega)
  have hP : (srcH : Int) * (srcW : Int) ≤ 2 ^ 30 := by
    have h := Nat.mul_le_mul hsh2 hsw2
    have h2 : srcH * srcW ≤ 2 ^ 30 := le_trans h (by norm_num)
    have hcast : (srcH : Int) * (srcW : Int) = ((srcH * srcW : Nat) : Int) := by
      push_cast
      ring
    rw [hcast]
    exact_mod_cast h2
  have hrow : nnCoord srcH dstH y * (srcW : Int) ≤ (srcH : Int) * (srcW : Int) - (srcW : Int) := by
    have h1 : nnCoord srcH dstH y ≤ (srcH : Int) - 1 := by omega
    have h2 : nnCoord srcH dstH y * (srcW : Int) ≤ ((srcH : Int) - 1) * (srcW : Int) :=
      mul_le_mul_of_nonneg_right h1 (Int.natCast_nonneg srcW)
    have h3 : ((srcH : Int) - 1) * (srcW : Int) = (srcH : Int) * (srcW : Int) - (srcW : Int) := by
      ring
    omega
  have hrow0 : 0 ≤ nnCoord srcH dstH y * (srcW : Int) :=
    mul_nonneg hr0 (Int.natCast_nonneg srcW)
  have hcomm : (srcW : Int) * (srcH : Int) = (srcH : Int) * (srcW : Int) := by ring
  refine ⟨hc0, hc1, hr0, hr1, ?_, ?_⟩ <;>
    · unfold nnSrcIndex
      rw [hu,
        wrap32_eq_self (n := nnCoord srcH dstH y * ((srcW : Nat) : Int))
          (by omega) (by omega),
        wrap32_eq_self (by omega) (by omega)]
      omega

/-- Witness for C10 at a concrete upscaling configuration (2x3 to 7x5). -/
theorem c10_nn_reads_in_bounds_witness :
    0 ≤ nnCoord 2 7 6 ∧ nnCoord 2 7 6 < (2 : Int) ∧
    0 ≤ nnCoord 3 5 4 ∧ nnCoord 3 5 4 < (3 : Int) ∧
    0 ≤ nnSrcIndex 2 3 7 5 6 4 ∧
    nnSrcIndex 2 3 7 5 6 4 < (2 : Int) * (3 : Int) :=
  c10_nn_reads_in_bounds 2 3 7 5 6 4 (by decide) (by decide) (by decide) (by decide)
    (by decide) (by norm_num) (by decide) (by norm_num) (by decide) (by decide)

/-- Counterexample to C10 as stated: at `srcW = dstW = 32769`, `srcH = dstH
= 1` (all dimensions ≥ 1), the read for the last pixel of the row is the
negative flat index `-32768` — outside the first `srcW*srcH` samples. -/
theorem c10_counterexample_negative_index :
    nnSrcIndex 32769 1 32769 1 32768 0 = -32768 ∧
    nnSrcIndex 32769 1 32769 1 32768 0 < 0 :=
  ⟨nnSrcIndex_32769, by rw [nnSrcIndex_32769]; norm_num⟩

/-- One axis of the box-average kernel: when downscaling with the source
dimension at most 32767, the fixed-point step is at least `2^16`, so the
source rectangle spans at least one and at most `srcD` samples. -/
lemma lerp_axis (srcD dstD n : Nat) (h1 : 1 ≤ dstD) (h2 : dstD ≤ srcD)
    (h3 : srcD ≤ 32767) (hn : n < dstD) :
    1 ≤ lerpHi srcD dstD n - lerpLo srcD dstD n ∧
    lerpHi srcD dstD n - lerpLo srcD dstD n ≤ (srcD : Int) := by
  set q : Nat := srcD * 65536 / dstD with hq
  have hqle : q ≤ srcD * 65536 := Nat.div_le_self _ _
  have hq0 : 0 ≤ (q : Int) := Int.natCast_nonneg q
  have hdelta : fxDelta srcD dstD = (q : Int) := by
    rw [fxDelta_eval srcD dstD (by omega) (by omega), ← hq]
    exact wrap32_eq_self (by omega) (by omega)
  have hql : 65536 ≤ q := by
    have h4 : dstD * 65536 ≤ srcD * 65536 := Nat.mul_le_mul_right 65536 h2
    have h5 : dstD * 65536 / dstD ≤ q := Nat.div_le_div_right h4
    rw [Nat.mul_div_cancel_left 65536 (by omega)] at h5
    exact h5
  have hmul : (n + 1) * q = n * q + q := Nat.succ_mul n q
  have hub : (n + 1) * q ≤ srcD * 65536 := by
    have hd : dstD * q ≤ srcD * 65536 := by
      rw [Nat.mul_comm]
      exact Nat.div_mul_le_self _ _
    have h6 : (n + 1) * q ≤ dstD * q := Nat.mul_le_mul_right q (by omega)
    omega
  have hacc0 : fxAccum (fxDelta srcD dstD) n = ((n * q : Nat) : Int) := by
    rw [hdelta, fxAccum_eq]
    have hc : (n : Int) * (q : Int) = ((n * q : Nat) : Int) := by push_cast; ring
    rw [hc]
    exact wrap32_eq_self (by omega) (by omega)
  have hacc1 : fxAccum (fxDelta srcD dstD) (n + 1) = (((n + 1) * q : Nat) : Int) := by
    rw [hdelta, fxAccum_eq]
    have hc : ((n + 1 : Nat) : Int) * (q : Int) = (((n + 1) * q : Nat) : Int) := by
      push_cast
      ring
    rw [hc]
    exact wrap32_eq_self (by omega) (by omega)
  unfold lerpHi lerpLo sar16
  rw [hacc0, hacc1]
  omega

/-- C5 (amended): in the box-average downsample, for all dimensions with
`1 ≤ dst ≤ src ≤ 32767` on both axes, the rectangle area
`(y1Src - y0Src) * (x1Src - x0Src)` is at least 1 for every destination
pixel, so the division by it is never a division by zero. At `src = 32768`
the fixed-point delta already overflows `int` and the area goes negative
(see the counterexample). -/
theorem c5_box_average_area_positive (srcW srcH dstW dstH x y : Nat)
    (hw1 : 1 ≤ dstW) (hw2 : dstW ≤ srcW) (hw3 : srcW ≤ 32767)
    (hh1 : 1 ≤ dstH) (hh2 : dstH ≤ srcH) (hh3 : srcH ≤ 32767)
    (hx : x < dstW) (hy : y < dstH) :
    1 ≤ lerpTot srcW srcH dstW dstH x y := by
  obtain ⟨hx1, hx2⟩ := lerp_axis srcW dstW x hw1 hw2 hw3 hx
  obtain ⟨hy1, hy2⟩ := lerp_axis srcH dstH y hh1 hh2 hh3 hy
  unfold lerpTot
  set dy : Int := lerpHi srcH dstH y - lerpLo srcH dstH y with hdy
  set dx : Int := lerpHi srcW dstW x - lerpLo srcW dstW x with hdx
  rw [wrap32_eq_self (n := dy) (by omega) (by omega),
      wrap32_eq_self (n := dx) (by omega) (by omega)]
  have hP : (srcH : Int) * (srcW : Int) ≤ 2 ^ 30 := by
    have h := Nat.mul_le_mul hh3 hw3
    have h2 : srcH * srcW ≤ 2 ^ 30 := le_trans h (by norm_num)
    have hcast : (srcH : Int) * (srcW : Int) = ((srcH * srcW : Nat) : Int) := by
      push_cast
      ring
    rw [hcast]
    exact_mod_cast h2
  have h1 : (1 : Int) ≤ dy * dx := by
    have h0 := mul_le_mul hy1 hx1 zero_le_one (by omega)
    omega
  have h2 : dy * dx ≤ (srcH : Int) * (srcW : Int) :=
    mul_le_mul hy2 hx2 (by omega) (Int.natCast_nonneg srcH)
  rw [wrap32_eq_self (by omega) (by omega)]
  exact h1

/-- Witness for C5 on a concrete 2x2-to-1x1 downsample. -/
theorem c5_box_average_area_positive_witness :
    1 ≤ lerpTot 2 2 1 1 0 0 :=
  c5_box_average_area_positive 2 2 1 1 0 0 (by decide) (by decide) (by decide)
    (by decide) (by decide) (by decide) (by decide) (by decide)

/-- Counterexample to C5 as stated: at `srcW = 32768, dstW = 1` (downscale,
so the claimed precondition `1 ≤ dst ≤ src` holds on both axes), the area
computed for the only destination pixel is `-32768`, not ≥ 1: the column
delta `32768 << 16 = 2^31` wraps to `-2^31` when stored in the `int`
`dxSrc`, making `x1Src = -32768`. -/
theorem c5_counterexample_overflow :
    lerpTot 32768 1 1 1 0 0 = -32768 ∧ ¬ (1 ≤ lerpTot 32768 1 1 1 0 0) := by
  have h : lerpTot 32768 1 1 1 0 0 = -32768 := by decide
  exact ⟨h, by rw [h]; norm_num⟩

end Claims

section Fifo

variable {α : Type}

/-- The state after `n` successive `add` calls, the `k`-th call adding
frame `F k`. -/
def addIter (s : CircularImageBuffer α) (F : Nat → α) : Nat → CircularImageBuffer α
  | 0 => s
  | n + 1 => add (addIter s F n) (F n)

/-- The state after `n` successive `get` calls. -/
def getIter (s : CircularImageBuffer α) : Nat → CircularImageBuffer α
  | 0 => s
  | n + 1 => (get (getIter s n)).2

/-- The value returned by the `(n+1)`-th of a run of successive `get` calls. -/
def getOut (s : CircularImageBuffer α) (n : Nat) : Option α :=
  (get (getIter s n)).1

lemma tmod_small {a b : Int} (h0 : 0 ≤ a) (h1 : a < b) : a.tmod b = a := by
  rw [Int.tmod_eq_emod h0 (by omega)]
  exact Int.emod_eq_of_lt h0 h1

/-- Writing frame `F k` into slot `k` extends the window of filled slots. -/
lemma update_slot_window (slots : Int → α) (F : Nat → α) (k : Nat) :
    Function.update (fun i => if 0 ≤ i ∧ i < (k : Int) then F i.toNat else slots i)
      ((k : Nat) : Int) (F k) =
      fun i => if 0 ≤ i ∧ i < ((k + 1 : Nat) : Int) then F i.toNat else slots i := by
  funext i
  rw [Function.update_apply]
  by_cases hi : i = ((k : Nat) : Int)
  · subst hi
    rw [if_pos rfl, if_pos (by omega), Int.toNat_natCast]
  · rw [if_neg hi]
    by_cases hc : 0 ≤ i ∧ i < (k : Int)
    · rw [if_pos hc, if_pos (by omega)]
    · rw [if_neg hc, if_neg (by omega)]

/-- The state after the first `k ≤ capacity` adds on a fresh buffer: the
first `k` slots hold the added frames in order, the read cursor points at
slot 0 (or the sentinel when nothing was added), and the write cursor has
advanced to `k` (wrapping to 0 when the buffer just became full). -/
lemma addIter_fresh (w h cap : Nat) (hcap : 0 < cap) (slots : Int → α) (F : Nat → α) :
    ∀ k, k ≤ cap →
    addIter (initBuffer w h cap slots) F k =
      { mWidth := w, mHeight := h, capacity := cap,
        mCircularBuffer := fun i => if 0 ≤ i ∧ i < (k : Int) then F i.toNat else slots i,
        mStatFramesAdded := k % 2 ^ 32, mStatFramesRead := 0, mStatFramesSkipped := 0,
        mCount := (k : Int),
        mNextAddIndex := if k = cap then 0 else (k : Int),
        mNextGetIndex := if k = 0 then -1 else 0,
        locked := false } := by
  intro k
  induction k with
  | zero =>
      intro _
      show initBuffer w h cap slots = _
      unfold initBuffer resetStats reset
      simp only []
      rw [CircularImageBuffer.mk.injEq]
      refine ⟨rfl, rfl, rfl, ?_, by omega, rfl, rfl, by omega, ?_, by norm_num, rfl⟩
      · funext i
        rw [if_neg (by omega)]
      · rw [if_neg (show ¬ ((0 : Nat) = cap) by omega)]
        omega
  | succ k ih =>
      intro hk
      show add (addIter (initBuffer w h cap slots) F k) (F k) = _
      rw [ih (by omega)]
      by_cases hk0 : k = 0
      · subst hk0
        rw [add_empty _ (F 0) (by simp only []; omega) (by simp only []; omega)]
        simp only []
        rw [CircularImageBuffer.mk.injEq]
        refine ⟨rfl, rfl, rfl, ?_, by omega, rfl, rfl, by omega, ?_, ?_, rfl⟩
        · rw [if_neg (show ¬ ((0 : Nat) = cap) by omega)]
          exact update_slot_window slots F 0
        · rw [if_neg (show ¬ ((0 : Nat) = cap) by omega)]
          by_cases hc1 : 0 + 1 = cap
          · rw [if_pos hc1]
            have hcast : ((0 : Nat) : Int) + 1 = (cap : Int) := by omega
            rw [hcast]
            exact Int.tmod_self
          · rw [if_neg hc1]
            rw [tmod_small (by omega) (by omega)]
            omega
        · rw [if_neg (show ¬ ((0 : Nat) = cap) by omega), if_neg (by omega)]
          omega
      · rw [add_mid _ (F k) (by simp only []; omega) (by simp only []; omega)
          (by simp only []; omega)]
        simp only []
        rw [CircularImageBuffer.mk.injEq]
        refine ⟨rfl, rfl, rfl, ?_, by omega, rfl, rfl, by omega, ?_, ?_, rfl⟩
        · rw [if_neg (show ¬ (k = cap) by omega)]
          exact update_slot_window slots F k
        · rw [if_neg (show ¬ (k = cap) by omega)]
          by_cases hfull : k + 1 = cap
          · rw [if_pos hfull]
            have hcast : (k : Int) + 1 = (cap : Int) := by omega
            rw [hcast]
            exact Int.tmod_self
          · rw [if_neg hfull]
            rw [tmod_small (by omega) (by omega)]
            omega
        · rw [if_neg hk0, if_neg (by omega)]

/-- The state after `capacity + 1` adds on a fresh buffer: the extra add
overwrites slot 0 (the oldest frame), bumps both cursors to 1 (mod the
capacity) and records one skipped frame. -/
lemma addIter_overfill (w h c : Nat) (hc : 0 < c) (slots : Int → α) (F : Nat → α) :
    addIter (initBuffer w h c slots) F (c + 1) =
      { mWidth := w, mHeight := h, capacity := c,
        mCircularBuffer := fun i =>
          if i = 0 then F c else if 0 ≤ i ∧ i < (c : Int) then F i.toNat else slots i,
        mStatFramesAdded := (c + 1) % 2 ^ 32, mStatFramesRead := 0,
        mStatFramesSkipped := 1,
        mCount := (c : Int),
        mNextAddIndex := if c = 1 then 0 else 1,
        mNextGetIndex := if c = 1 then 0 else 1,
        locked := false } := by
  show add (addIter (initBuffer w h c slots) F c) (F c) = _
  rw [addIter_fresh w h c hc slots F c le_rfl]
  rw [add_full _ (F c) (by simp only []; omega) (by simp only [])]
  simp only []
  rw [CircularImageBuffer.mk.injEq]
  refine ⟨rfl, rfl, rfl, ?_, by omega, rfl, by omega, rfl, ?_, ?_, rfl⟩
  · rw [if_pos trivial]
    funext i
    rw [Function.update_apply]
  · rw [if_pos trivial]
    by_cases hc1 : c = 1
    · subst hc1
      rw [if_pos rfl]
      decide
    · rw [if_neg hc1, tmod_small (by omega) (by omega)]
      omega
  · rw [if_neg (show ¬ (c = 0) by omega)]
    by_cases hc1 : c = 1
    · subst hc1
      rw [if_pos rfl]
      decide
    · rw [if_neg hc1, tmod_small (by omega) (by omega)]
      omega

/-- Running `j ≤ capacity` gets on a full buffer whose read cursor sits at
`1 mod capacity`: the count falls by one per get and the read cursor walks
forward, wrapping once; after the last get the state is the canonical empty
state. -/
lemma getIter_fresh (w h c : Nat) (hc : 0 < c) (B : Int → α) (A : Nat) :
    ∀ j, j ≤ c →
    getIter { mWidth := w, mHeight := h, capacity := c, mCircularBuffer := B,
              mStatFramesAdded := A, mStatFramesRead := 0, mStatFramesSkipped := 1,
              mCount := (c : Int),
              mNextAddIndex := if c = 1 then 0 else 1,
              mNextGetIndex := if c = 1 then 0 else 1,
              locked := false } j =
      { mWidth := w, mHeight := h, capacity := c, mCircularBuffer := B,
        mStatFramesAdded := A, mStatFramesRead := j % 2 ^ 32, mStatFramesSkipped := 1,
        mCount := (c : Int) - (j : Int),
        mNextAddIndex := if j = c then 0 else if c = 1 then 0 else 1,
        mNextGetIndex := if j = c then -1 else if 1 + j = c then 0
          else ((1 + j : Nat) : Int),
        locked := false } := by
  intro j
  induction j with
  | zero =>
      intro _
      simp only [getIter]
      rw [CircularImageBuffer.mk.injEq]
      refine ⟨rfl, rfl, rfl, rfl, rfl, by omega, rfl, by omega, ?_, ?_, rfl⟩
      · rw [if_neg (show ¬ ((0 : Nat) = c) by omega)]
      · rw [if_neg (show ¬ ((0 : Nat) = c) by omega)]
        by_cases hc1 : c = 1
        · subst hc1
          rw [if_pos rfl, if_pos (by norm_num)]
        · rw [if_neg hc1, if_neg (by omega)]
          omega
  | succ j ih =>
      intro hj
      simp only [getIter]
      rw [ih (by omega)]
      by_cases hlast : j + 1 = c
      · rw [get_last _ (by simp only []; omega)]
        simp only []
        rw [CircularImageBuffer.mk.injEq]
        refine ⟨rfl, rfl, rfl, rfl, rfl, by omega, rfl, by omega, ?_, ?_, rfl⟩
        · rw [if_pos hlast]
        · rw [if_pos hlast]
      · rw [get_more _ (by simp only []; omega) (by simp only []; omega)]
        simp only []
        rw [CircularImageBuffer.mk.injEq]
        refine ⟨rfl, rfl, rfl, rfl, rfl, by omega, rfl, by omega, ?_, ?_, rfl⟩
        · rw [if_neg (show ¬ (j = c) by omega), if_neg (show ¬ (j + 1 = c) by omega)]
        · rw [if_neg (show ¬ (j = c) by omega), if_neg (show ¬ (1 + j = c) by omega),
              if_neg (show ¬ (j + 1 = c) by omega)]
          by_cases hcyc : 1 + (j + 1) = c
          · rw [if_pos hcyc]
            have hcast : ((1 + j : Nat) : Int) + 1 = (c : Int) := by omega
            rw [hcast]
            exact Int.tmod_self
          · rw [if_neg hcyc, tmod_small (by omega) (by omega)]
            omega

lemma getIter_add (s : CircularImageBuffer α) (a b : Nat) :
    getIter s (a + b) = getIter (getIter s a) b := by
  induction b with
  | zero => rfl
  | succ b ih =>
      show (get (getIter s (a + b))).2 = (get (getIter (getIter s a) b)).2
      rw [ih]

lemma getIter_empty (s : CircularImageBuffer α) (h : s.mCount = 0) (n : Nat) :
    getIter s n = s := by
  induction n with
  | zero => rfl
  | succ n ih =>
      show (get (getIter s n)).2 = s
      rw [ih, get_empty s h]

/-- C3: adding `capacity + 1` distinct frames `F 0 … F c` to a fresh buffer
of capacity `c > 0` leaves `count = c` and `framesSkipped = 1`; the first
frame `F 0` has been evicted and is never returned by any subsequent get;
`c + 1` successive gets return `F 1, …, F c` in order and then the empty
marker. -/
theorem c3_overfill_drops_oldest {α : Type} (c w h : Nat) (hc : 0 < c)
    (slots : Int → α) (F : Nat → α)
    (hF : ∀ i j, i ≤ c → j ≤ c → F i = F j → i = j) :
    (addIter (initBuffer w h c slots) F (c + 1)).mCount = (c : Int) ∧
    (addIter (initBuffer w h c slots) F (c + 1)).mStatFramesSkipped = 1 ∧
    (∀ j, j < c →
      getOut (addIter (initBuffer w h c slots) F (c + 1)) j = some (F (j + 1))) ∧
    getOut (addIter (initBuffer w h c slots) F (c + 1)) c = none ∧
    (∀ j, getOut (addIter (initBuffer w h c slots) F (c + 1)) j ≠ some (F 0)) := by
  rw [addIter_overfill w h c hc slots F]
  set T : CircularImageBuffer α :=
    { mWidth := w, mHeight := h, capacity := c,
      mCircularBuffer := fun i =>
        if i = 0 then F c else if 0 ≤ i ∧ i < (c : Int) then F i.toNat else slots i,
      mStatFramesAdded := (c + 1) % 2 ^ 32, mStatFramesRead := 0,
      mStatFramesSkipped := 1,
      mCount := (c : Int),
      mNextAddIndex := if c = 1 then 0 else 1,
      mNextGetIndex := if c = 1 then 0 else 1,
      locked := false } with hT
  have hstate := getIter_fresh w h c hc
    (fun i => if i = 0 then F c else if 0 ≤ i ∧ i < (c : Int) then F i.toNat else slots i)
    ((c + 1) % 2 ^ 32)
  rw [← hT] at hstate
  have hget : ∀ j, j < c → getOut T j = some (F (j + 1)) := by
    intro j hj
    unfold getOut
    rw [hstate j (by omega)]
    by_cases hlast : j + 1 = c
    · rw [get_last _ (by simp only []; omega)]
      simp only []
      rw [if_neg (show ¬ (j = c) by omega), if_pos (show 1 + j = c by omega)]
      rw [if_pos rfl]
      have hcj : c = j + 1 := by omega
      rw [hcj]
    · rw [get_more _ (by simp only []; omega) (by simp only []; omega)]
      simp only []
      rw [if_neg (show ¬ (j = c) by omega), if_neg (show ¬ (1 + j = c) by omega)]
      rw [if_neg (show ¬ (((1 + j : Nat) : Int) = 0) by omega),
          if_pos (show (0 : Int) ≤ ((1 + j : Nat) : Int) ∧
            ((1 + j : Nat) : Int) < (c : Int) by omega)]
      rw [Int.toNat_natCast]
      have hadd : 1 + j = j + 1 := by omega
      rw [hadd]
  have hcount0 : (getIter T c).mCount = 0 := by
    rw [hstate c le_rfl]
    simp only []
    omega
  have hnone : ∀ j, c ≤ j → getOut T j = none := by
    intro j hj
    unfold getOut
    obtain ⟨d, rfl⟩ : ∃ d, j = c + d := ⟨j - c, by omega⟩
    rw [getIter_add, getIter_empty _ hcount0, get_empty _ hcount0]
  refine ⟨rfl, rfl, hget, hnone c le_rfl, ?_⟩
  intro j
  by_cases hj : j < c
  · rw [hget j hj]
    intro hEq
    have h2 := hF (j + 1) 0 (by omega) (by omega) (Option.some.inj hEq)
    omega
  · rw [hnone j (by omega)]
    exact fun hx => Option.noConfusion hx

/-- Witness for C3 on a concrete capacity-2 buffer with frames 0, 1, 2. -/
theorem c3_overfill_drops_oldest_witness :
    (addIter (initBuffer 1 1 2 (fun _ => (0 : Nat))) (fun i => i) (2 + 1)).mCount
        = ((2 : Nat) : Int) ∧
    (addIter (initBuffer 1 1 2 (fun _ => (0 : Nat))) (fun i => i) (2 + 1)).mStatFramesSkipped
        = 1 ∧
    (∀ j, j < 2 →
      getOut (addIter (initBuffer 1 1 2 (fun _ => (0 : Nat))) (fun i => i) (2 + 1)) j
        = some ((fun i => i) (j + 1))) ∧
    getOut (addIter (initBuffer 1 1 2 (fun _ => (0 : Nat))) (fun i => i) (2 + 1)) 2
        = none ∧
    (∀ j, getOut (addIter (initBuffer 1 1 2 (fun _ => (0 : Nat))) (fun i => i) (2 + 1)) j
        ≠ some ((fun i => i) 0)) :=
  c3_overfill_drops_oldest 2 1 1 (by norm_num) (fun _ => (0 : Nat)) (fun i => i)
    (fun i j _ _ hij => hij)

end Fifo

end Magic
